import Mathlib

/-!
Verification of the task-glitch repository's analytics engine and task store.

The development shallowly embeds the two source files:
  * `src/utils/logic.ts`  — pure metric / analytics functions;
  * `src/hooks/useTasks.ts` — the in-memory task store's mutation operations
    and the ingestion normalisation step.

Modelling conventions:
  * JavaScript numbers are modelled by `JSNum`: a finite rational, `NaN`,
    `Infinity` or `-Infinity`.  IEEE-754 rounding of finite arithmetic is
    abstracted to exact rational arithmetic; the claims under study do not
    depend on float rounding.  `Math.round x` is `⌊x + 1/2⌋` (half toward
    `+∞`), exactly as in JS.
  * ISO-8601 timestamps are modelled by their epoch-millisecond value
    (`Int`).  `toISOString` always yields a 24-character string, so
    `localeCompare` on two such strings coincides with numeric comparison
    of the underlying instants, and every such string is truthy; the model
    therefore compares the instants directly.
  * `localeCompare` on titles / ids is modelled by the code-point order on
    `String` (a total order; the verified properties do not depend on the
    particular collation the host locale provides).
  * `Array.prototype.sort` with a consistent comparator is the unique
    stable sort by that comparator; it is modelled by `List.insertionSort`,
    which is stable.
  * JavaScript `Date` computes with the proleptic Gregorian calendar in
    UTC; its year / day-of-week accessors are modelled with the standard
    civil-calendar ↔ epoch-day conversion algorithms.
  * `crypto.randomUUID()` and `new Date()` ("now") are nondeterministic
    inputs of the mutation handlers; they are passed as explicit
    parameters, following the spec's own design note.
-/

namespace TaskGlitch

/-- A JavaScript number: a finite value (modelled exactly as a rational),
`NaN`, `Infinity` or `-Infinity`. -/
inductive JSNum where
  | num (q : ℚ)
  | nan
  | inf
  | ninf
deriving DecidableEq, Repr

namespace JSNum

/-- `Number.isFinite`. -/
def isFinite : JSNum → Bool
  | num _ => true
  | _ => false

/-- JavaScript `<=`: any comparison involving `NaN` is `false`. -/
def jle : JSNum → JSNum → Bool
  | nan, _ => false
  | _, nan => false
  | ninf, _ => true
  | _, inf => true
  | inf, _ => false
  | _, ninf => false
  | num a, num b => decide (a ≤ b)

/-- JavaScript `<`: any comparison involving `NaN` is `false`. -/
def jlt : JSNum → JSNum → Bool
  | nan, _ => false
  | _, nan => false
  | num a, num b => decide (a < b)
  | inf, _ => false
  | _, ninf => false
  | ninf, _ => true
  | _, inf => true

/-- JavaScript addition on the number model. -/
def jadd : JSNum → JSNum → JSNum
  | nan, _ => nan
  | _, nan => nan
  | inf, ninf => nan
  | ninf, inf => nan
  | inf, _ => inf
  | _, inf => inf
  | ninf, _ => ninf
  | _, ninf => ninf
  | num a, num b => num (a + b)

/-- JavaScript division on the number model (sign-of-zero subtleties of
IEEE-754 are collapsed: division of a nonzero finite value by `0` yields
the infinity of the numerator's sign, `0/0` yields `NaN`). -/
def jdiv : JSNum → JSNum → JSNum
  | nan, _ => nan
  | _, nan => nan
  | inf, inf => nan
  | inf, ninf => nan
  | ninf, inf => nan
  | ninf, ninf => nan
  | inf, num b => if b < 0 then ninf else inf
  | ninf, num b => if b < 0 then inf else ninf
  | num _, inf => num 0
  | num _, ninf => num 0
  | num a, num b =>
      if b = 0 then (if a = 0 then nan else if a < 0 then ninf else inf)
      else num (a / b)

/-- The rational carried by a finite `JSNum` (junk value `0` otherwise). -/
def toQ : JSNum → ℚ
  | num q => q
  | _ => 0

end JSNum

/-- JavaScript `Math.round` on a finite value: round half toward `+∞`. -/
def jsRound (q : ℚ) : ℤ := ⌊q + 1 / 2⌋

/-- `computeROI` (src/utils/logic.ts, lines 3–10): `null` unless both inputs
are finite and `timeTaken > 0`; the quotient, rounded to two decimals,
otherwise.  The `typeof … !== 'number'` guards are vacuous in the model,
where every value is a number. -/
def computeROI (revenue timeTaken : JSNum) : Option ℚ :=
  if ¬ revenue.isFinite then none
  else if ¬ timeTaken.isFinite ∨ timeTaken.jle (JSNum.num 0) then none
  else
    let val := revenue.jdiv timeTaken
    if ¬ val.isFinite then none
    else some ((jsRound (val.toQ * 100) : ℚ) / 100)

/-- **C6.** For all numbers `r` and `t`, `computeROI r t` is `null` exactly
when `t ≤ 0` or `r`, `t` or `r/t` is not finite, and otherwise equals
`r/t` rounded to two decimal places (`round(r/t*100)/100`). -/
theorem computeROI_null_iff_and_value (r t : JSNum) :
    computeROI r t =
      if t.jle (JSNum.num 0) ∨ ¬ r.isFinite ∨ ¬ t.isFinite ∨ ¬ (r.jdiv t).isFinite
      then none
      else some ((jsRound ((r.jdiv t).toQ * 100) : ℚ) / 100) := by
  cases r <;> cases t <;>
    simp only [computeROI, JSNum.isFinite, JSNum.jle, JSNum.jdiv, JSNum.toQ,
      Bool.not_true, Bool.not_false, decide_eq_true_eq] <;>
    try simp
  case num.num a b =>
    by_cases hb : b ≤ 0
    · simp [hb]
    · have hb0 : ¬ b = 0 := fun h => hb (le_of_eq h)
      simp [hb, hb0]

/-- Task priority (`'High' | 'Medium' | 'Low'`). -/
inductive Priority where
  | high
  | medium
  | low
deriving DecidableEq, Repr

/-- Task status (`'Todo' | 'In Progress' | 'Done'`). -/
inductive Status where
  | todo
  | inProgress
  | done
deriving DecidableEq, Repr

/-- The canonical `Task` record.  `createdAt` / `completedAt` carry the
epoch-millisecond instant of the ISO-8601 string. -/
structure Task where
  id : String
  title : String
  revenue : JSNum
  timeTaken : JSNum
  priority : Priority
  status : Status
  notes : Option String
  createdAt : Int
  completedAt : Option Int
deriving DecidableEq, Repr

/-- `computePriorityWeight` (src/utils/logic.ts, lines 12–21). -/
def computePriorityWeight : Priority → ℕ
  | Priority.high => 3
  | Priority.medium => 2
  | _ => 1

/-- A `DerivedTask`: the task plus `roi` and `priorityWeight`. -/
structure DerivedTask extends Task where
  roi : Option ℚ
  priorityWeight : ℕ
deriving DecidableEq, Repr

/-- `withDerived` (src/utils/logic.ts, lines 23–29). -/
def withDerived (t : Task) : DerivedTask :=
  { t with
    roi := computeROI t.revenue t.timeTaken,
    priorityWeight := computePriorityWeight t.priority }

/-- `a.roi ?? -Infinity`: a null ROI acts as `-∞`, modelled in `WithBot ℚ`. -/
def roiVal : Option ℚ → WithBot ℚ
  | some q => (q : WithBot ℚ)
  | none => ⊥

/-- Three-way comparison in a linear order, `.lt` / `.eq` / `.gt`
mirroring the sign of a JS numeric comparator result. -/
def cmpo {α : Type} [LinearOrder α] (x y : α) : Ordering :=
  if x < y then Ordering.lt else if x = y then Ordering.eq else Ordering.gt

/-- The comparator of `sortTasks` (src/utils/logic.ts, lines 32–45):
descending ROI (null as `-∞`), then descending `priorityWeight`, then
descending `createdAt`, then ascending `title`, then ascending `id`.
Each `if (x !== y) return sign` step of the source is one `Ordering.then`
link.  The source's truthiness guard on `createdAt` holds for every ISO
string and is therefore absent from the model (see the header). -/
def taskCmp (a b : DerivedTask) : Ordering :=
  (cmpo (roiVal b.roi) (roiVal a.roi)).then
    ((cmpo b.priorityWeight a.priorityWeight).then
      ((cmpo b.createdAt a.createdAt).then
        ((cmpo a.title b.title).then (cmpo a.id b.id))))

/-- `sortTasks` (src/utils/logic.ts, lines 31–46): the stable sort of a
copy of the input by `taskCmp`; an element precedes another when the
comparator does not answer `gt`. -/
def sortTasks (l : List DerivedTask) : List DerivedTask :=
  List.insertionSort (fun a b => taskCmp a b ≠ Ordering.gt) l

/-- The sort key realising `taskCmp` as `≤` in a lexicographic order. -/
def sortKey (t : DerivedTask) :
    (WithBot ℚ)ᵒᵈ ×ₗ (ℕᵒᵈ ×ₗ (Intᵒᵈ ×ₗ (String ×ₗ String))) :=
  toLex (OrderDual.toDual (roiVal t.roi),
    toLex (OrderDual.toDual t.priorityWeight,
      toLex (OrderDual.toDual t.createdAt, toLex (t.title, t.id))))

theorem cmpo_ne_gt {α : Type} [LinearOrder α] (x y : α) :
    (cmpo x y ≠ Ordering.gt) ↔ x ≤ y := by
  unfold cmpo
  rcases lt_trichotomy x y with h | h | h
  · simp [h, le_of_lt h]
  · subst h; simp [lt_irrefl]
  · simp [not_lt.2 (le_of_lt h), ne_of_gt h, not_le.2 h]

theorem cmpo_then_ne_gt {α : Type} [LinearOrder α] (x y : α) (o : Ordering) :
    ((cmpo x y).then o ≠ Ordering.gt) ↔ (x < y ∨ (x = y ∧ o ≠ Ordering.gt)) := by
  unfold cmpo
  rcases lt_trichotomy x y with h | h | h
  · simp [h, Ordering.then]
  · subst h; simp [lt_irrefl, Ordering.then]
  · simp [not_lt.2 (le_of_lt h), ne_of_gt h, lt_asymm h, Ordering.then]

theorem cmpo_then_ne_gt' {α : Type} [LinearOrder α] (x y : α) (o : Ordering) :
    ((cmpo x y).then o ≠ Ordering.gt) ↔ (x < y ∨ (y = x ∧ o ≠ Ordering.gt)) := by
  rw [cmpo_then_ne_gt]
  constructor <;> rintro (h | ⟨h, ho⟩)
  · exact Or.inl h
  · exact Or.inr ⟨h.symm, ho⟩
  · exact Or.inl h
  · exact Or.inr ⟨h.symm, ho⟩

/-- `taskCmp a b ≠ gt` is exactly `sortKey a ≤ sortKey b`. -/
theorem taskCmp_ne_gt_iff (a b : DerivedTask) :
    (taskCmp a b ≠ Ordering.gt) ↔ sortKey a ≤ sortKey b := by
  unfold taskCmp sortKey
  rw [cmpo_then_ne_gt', cmpo_then_ne_gt', cmpo_then_ne_gt', cmpo_then_ne_gt,
    cmpo_ne_gt]
  rw [Prod.Lex.le_iff, Prod.Lex.le_iff, Prod.Lex.le_iff, Prod.Lex.le_iff]
  simp only [OrderDual.toDual_lt_toDual, OrderDual.toDual_inj]

theorem taskLe_trans {a b c : DerivedTask}
    (hab : taskCmp a b ≠ Ordering.gt) (hbc : taskCmp b c ≠ Ordering.gt) :
    taskCmp a c ≠ Ordering.gt :=
  (taskCmp_ne_gt_iff a c).mpr
    (le_trans ((taskCmp_ne_gt_iff a b).mp hab) ((taskCmp_ne_gt_iff b c).mp hbc))

theorem taskLe_total (a b : DerivedTask) :
    taskCmp a b ≠ Ordering.gt ∨ taskCmp b a ≠ Ordering.gt := by
  rcases le_total (sortKey a) (sortKey b) with h | h
  · exact Or.inl ((taskCmp_ne_gt_iff a b).mpr h)
  · exact Or.inr ((taskCmp_ne_gt_iff b a).mpr h)

theorem sortTasks_sorted (l : List DerivedTask) :
    List.Sorted (fun a b => taskCmp a b ≠ Ordering.gt) (sortTasks l) :=
  @List.sorted_insertionSort DerivedTask (fun a b => taskCmp a b ≠ Ordering.gt)
    (fun _ _ => instDecidableNot) ⟨taskLe_total⟩ ⟨fun _ _ _ => taskLe_trans⟩ l

/-- **C7.** `sortTasks` returns a permutation of its input of equal length
(the input list itself — a value in this model — is untouched), sorting
twice yields the same list as sorting once, and in the output a task with
a null ROI never precedes a task with a finite ROI. -/
theorem sortTasks_perm_idem_nullLast (l : List DerivedTask) :
    (sortTasks l).Perm l ∧
    (sortTasks l).length = l.length ∧
    sortTasks (sortTasks l) = sortTasks l ∧
    (sortTasks l).Pairwise (fun a b => a.roi = none → b.roi = none) := by
  refine ⟨List.perm_insertionSort _ l, (List.perm_insertionSort _ l).length_eq, ?_, ?_⟩
  · exact (sortTasks_sorted l).insertionSort_eq
  · refine (sortTasks_sorted l).imp ?_
    intro a b hab ha
    have h := (taskCmp_ne_gt_iff a b).mp hab
    rw [sortKey, sortKey, Prod.Lex.le_iff] at h
    rcases h with h | ⟨h, _⟩
    · rw [OrderDual.toDual_lt_toDual] at h
      rw [ha] at h
      exact absurd h (by simp [roiVal])
    · rw [OrderDual.toDual_inj] at h
      rw [ha] at h
      cases hb : b.roi with
      | none => rfl
      | some q => rw [hb] at h; exact absurd h.symm (by simp [roiVal])

/-- The mutable state owned by `useTasks`: the canonical collection and the
single-slot `lastDeleted` buffer. -/
structure StoreState where
  tasks : List Task
  lastDeleted : Option Task
deriving DecidableEq, Repr

/-- The argument of `addTask`: `Omit<Task, 'id'> & { id?: string }`. -/
structure AddInput where
  id : Option String
  title : String
  revenue : JSNum
  timeTaken : JSNum
  priority : Priority
  status : Status
  notes : Option String
  createdAt : Int
  completedAt : Option Int
deriving DecidableEq, Repr

/-- A `Partial<Task>` patch: a field is `some v` when the key is present. -/
structure TaskPatch where
  id : Option String := none
  title : Option String := none
  revenue : Option JSNum := none
  timeTaken : Option JSNum := none
  priority : Option Priority := none
  status : Option Status := none
  notes : Option String := none
  createdAt : Option Int := none
  completedAt : Option Int := none
deriving DecidableEq, Repr

/-- `addTask` (src/hooks/useTasks.ts, lines 108–117).  `newId` models
`crypto.randomUUID()` and `now` models `new Date().toISOString()`. -/
def addTask (s : StoreState) (task : AddInput) (newId : String) (now : Int) :
    StoreState :=
  let id := task.id.getD newId
  let timeTaken :=
    if task.timeTaken.jle (JSNum.num 0) then JSNum.num 1 else task.timeTaken
  let createdAt := now
  let status := task.status
  let completedAt := if status = Status.done then some createdAt else none
  { s with tasks := s.tasks ++
      [{ id := id, title := task.title, revenue := task.revenue,
         timeTaken := timeTaken, priority := task.priority, status := status,
         notes := task.notes, createdAt := createdAt,
         completedAt := completedAt }] }

/-- The spread `{ ...t, ...patch }`: every key present in the patch
overwrites the task's field. -/
def applyPatch (t : Task) (p : TaskPatch) : Task :=
  { id := p.id.getD t.id,
    title := p.title.getD t.title,
    revenue := p.revenue.getD t.revenue,
    timeTaken := p.timeTaken.getD t.timeTaken,
    priority := p.priority.getD t.priority,
    status := p.status.getD t.status,
    notes := (p.notes.map some).getD t.notes,
    createdAt := p.createdAt.getD t.createdAt,
    completedAt := (p.completedAt.map some).getD t.completedAt }

/-- `updateTask` (src/hooks/useTasks.ts, lines 119–132): merge the patch
onto the matching task, stamp `completedAt` on a first transition into
Done, then re-clamp `timeTaken` in a second pass that re-checks the id on
the already-merged task. -/
def updateTask (s : StoreState) (id : String) (patch : TaskPatch) (now : Int) :
    StoreState :=
  let next := s.tasks.map fun t =>
    if t.id ≠ id then t
    else
      let merged := applyPatch t patch
      if t.status ≠ Status.done ∧ merged.status = Status.done ∧
          merged.completedAt = none
      then { merged with completedAt := some now }
      else merged
  { s with tasks := next.map fun t =>
      if t.id = id ∧ (patch.timeTaken.getD t.timeTaken).jle (JSNum.num 0)
      then { t with timeTaken := JSNum.num 1 } else t }

/-- `deleteTask` (src/hooks/useTasks.ts, lines 134–140): `lastDeleted` is
set to `find(...) || null` unconditionally, and the matching tasks are
filtered out. -/
def deleteTask (s : StoreState) (id : String) : StoreState :=
  { tasks := s.tasks.filter fun t => t.id ≠ id,
    lastDeleted := s.tasks.find? fun t => t.id = id }

/-- `undoDelete` (src/hooks/useTasks.ts, lines 142–146). -/
def undoDelete (s : StoreState) : StoreState :=
  match s.lastDeleted with
  | none => s
  | some t => { tasks := s.tasks ++ [t], lastDeleted := none }

/-- A mutation of the collection through `addTask` / `updateTask`, with the
nondeterministic inputs (fresh id, current time) made explicit. -/
inductive StoreOp where
  | add (input : AddInput) (newId : String) (now : Int)
  | update (id : String) (patch : TaskPatch) (now : Int)

/-- Run one operation against the store. -/
def applyOp (s : StoreState) : StoreOp → StoreState
  | StoreOp.add input newId now => addTask s input newId now
  | StoreOp.update id patch now => updateTask s id patch now

/-- Run a sequence of operations against the store. -/
def applyOps (s : StoreState) (ops : List StoreOp) : StoreState :=
  ops.foldl applyOp s

/-- The store before any mutation: empty collection, empty undo buffer. -/
def initialStore : StoreState := ⟨[], none⟩

/-- A task used as concrete input in store scenarios. -/
def taskA0 : Task :=
  ⟨"a", "t", JSNum.num 0, JSNum.num 1, Priority.high, Status.todo, none, 0, none⟩

/-- A second task (distinct id) for store scenarios. -/
def taskB0 : Task :=
  ⟨"b", "u", JSNum.num 7, JSNum.num 2, Priority.low, Status.done, none, 0, some 86400000⟩

/-- `addTask` input that creates task `"a"` with `timeTaken = 5`. -/
def c2Input : AddInput :=
  ⟨some "a", "t", JSNum.num 0, JSNum.num 5, Priority.high, Status.todo, none, 0, none⟩

/-- A numeric patch that renames the task and sets `timeTaken` to `-5`. -/
def c2Patch : TaskPatch := { id := some "b", timeTaken := some (JSNum.num (-5)) }

/-- The two-operation run that defeats the `timeTaken` clamp. -/
def c2Ops : List StoreOp :=
  [StoreOp.add c2Input "x" 0, StoreOp.update "a" c2Patch 1]

/-- **C2.** The `timeTaken > 0` store invariant FAILS on the code: after
`addTask` of task `"a"` (`timeTaken = 5`) and `updateTask "a"` with the
numeric patch `{id: "b", timeTaken: -5}`, the stored `timeTaken` is `-5`.
The clamp pass re-checks `t.id === id` on the already-merged task, whose
id the same patch changed, so the clamp never fires. -/
theorem timeTaken_invariant_violated :
    ((applyOps initialStore c2Ops).tasks.map Task.timeTaken) = [JSNum.num (-5)] ∧
    JSNum.jle (JSNum.num (-5)) (JSNum.num 0) = true := by
  constructor <;> rfl

/-- **C3.** Deleting a missing id FAILS to preserve the `lastDeleted`
buffer: the collection is unchanged, but `lastDeleted` is overwritten with
`find(...) || null`, i.e. cleared, losing the previously buffered task. -/
theorem deleteTask_missing_id_clears_lastDeleted :
    (deleteTask ⟨[taskA0], some taskB0⟩ "zzz").lastDeleted = none ∧
    (deleteTask ⟨[taskA0], some taskB0⟩ "zzz").tasks = [taskA0] := by
  constructor <;> rfl

/-- **C5.** `updateTask` FAILS to keep `id` and `createdAt` immutable: the
patch is spread over the task, so `{id: "b", createdAt: 999}` applied to
task `"a"` (created at `0`) yields a stored task with id `"b"` and
`createdAt = 999`. -/
theorem updateTask_mutates_id_and_createdAt :
    ((updateTask ⟨[taskA0], none⟩ "a"
        { id := some "b", createdAt := some 999 } 5).tasks.map
      fun t => (t.id, t.createdAt)) = [("b", 999)] := by
  rfl

/-- **C8.** With unique ids, deleting an existing task `A` buffers exactly
`A` and removes it; a subsequent `undoDelete` re-appends `A` at the end,
clears the buffer, and restores the collection's contents as a multiset. -/
theorem delete_then_undo_restores (s : StoreState) (A : Task)
    (hmem : A ∈ s.tasks) (hnodup : (s.tasks.map Task.id).Nodup) :
    (deleteTask s A.id).lastDeleted = some A ∧
    A ∉ (deleteTask s A.id).tasks ∧
    A ∈ (undoDelete (deleteTask s A.id)).tasks ∧
    (undoDelete (deleteTask s A.id)).tasks.getLast? = some A ∧
    (undoDelete (deleteTask s A.id)).lastDeleted = none ∧
    (undoDelete (deleteTask s A.id)).tasks.Perm s.tasks := by
  obtain ⟨l₁, l₂, hsplit⟩ := List.append_of_mem hmem
  have hnd := hnodup
  rw [hsplit, List.map_append, List.map_cons] at hnd
  obtain ⟨hn1, hn2, hdisj⟩ := List.nodup_append.mp hnd
  have h1 : ∀ x ∈ l₁, ¬ x.id = A.id := by
    intro x hx hxA
    exact hdisj (hxA ▸ List.mem_map_of_mem Task.id hx) (List.mem_cons_self _ _)
  have h2 : ∀ x ∈ l₂, ¬ x.id = A.id := by
    intro x hx hxA
    exact (List.nodup_cons.mp hn2).1 (hxA ▸ List.mem_map_of_mem Task.id hx)
  have hdel : deleteTask s A.id = ⟨l₁ ++ l₂, some A⟩ := by
    simp only [deleteTask]
    rw [StoreState.mk.injEq]
    constructor
    · rw [hsplit, List.filter_append, List.filter_cons]
      have hA : ¬ (decide (A.id ≠ A.id) = true) := by simp
      rw [if_neg hA]
      rw [List.filter_eq_self.mpr fun x hx => by simpa using h1 x hx,
        List.filter_eq_self.mpr fun x hx => by simpa using h2 x hx]
    · rw [hsplit, List.find?_append]
      rw [List.find?_eq_none.mpr fun x hx => by simpa using h1 x hx]
      rw [List.find?_cons_of_pos _ (by simp)]
      rfl
  have hundo : undoDelete (deleteTask s A.id) = ⟨(l₁ ++ l₂) ++ [A], none⟩ := by
    rw [hdel]
    rfl
  refine ⟨by rw [hdel], ?_, ?_, ?_, ?_, ?_⟩
  · rw [hdel]
    intro hA
    rcases List.mem_append.mp hA with h | h
    · exact h1 A h rfl
    · exact h2 A h rfl
  · rw [hundo]
    exact List.mem_append_right _ (List.mem_singleton_self A)
  · rw [hundo]
    exact List.getLast?_concat _
  · rw [hundo]
  · rw [hundo, hsplit]
    show ((l₁ ++ l₂) ++ [A]).Perm (l₁ ++ A :: l₂)
    rw [List.append_assoc]
    exact List.Perm.append_left l₁ (List.perm_append_singleton A l₂)

/-- Witness for C8 at a concrete two-task store. -/
theorem delete_then_undo_restores_witness :
    (taskB0 ∈ (⟨[taskA0, taskB0], none⟩ : StoreState).tasks ∧
      ((⟨[taskA0, taskB0], none⟩ : StoreState).tasks.map Task.id).Nodup) ∧
    ((deleteTask ⟨[taskA0, taskB0], none⟩ taskB0.id).lastDeleted = some taskB0 ∧
    taskB0 ∉ (deleteTask ⟨[taskA0, taskB0], none⟩ taskB0.id).tasks ∧
    taskB0 ∈ (undoDelete (deleteTask ⟨[taskA0, taskB0], none⟩ taskB0.id)).tasks ∧
    (undoDelete (deleteTask ⟨[taskA0, taskB0], none⟩ taskB0.id)).tasks.getLast? =
      some taskB0 ∧
    (undoDelete (deleteTask ⟨[taskA0, taskB0], none⟩ taskB0.id)).lastDeleted = none ∧
    (undoDelete (deleteTask ⟨[taskA0, taskB0], none⟩ taskB0.id)).tasks.Perm
      (⟨[taskA0, taskB0], none⟩ : StoreState).tasks) :=
  ⟨⟨by decide, by decide⟩,
    delete_then_undo_restores ⟨[taskA0, taskB0], none⟩ taskB0 (by decide) (by decide)⟩

/-- **C10.** The `timeTaken` clamp in `addTask` / `updateTask` fires only
when the supplied (or, for an update without a `timeTaken` key, resulting)
value satisfies the JS comparison `<= 0`.  `NaN <= 0` is `false`, so a
`NaN` `timeTaken` is not clamped: `addTask` appends it unchanged and an
update whose patch carries it stores it unchanged (the `patch.id = none`
hypothesis keeps the clamp's id re-check addressed at the same task). -/
theorem clamp_fires_only_on_nonpositive
    (s : StoreState) (input : AddInput) (newId : String) (now : Int)
    (hin : input.timeTaken.jle (JSNum.num 0) = false)
    (id : String) (patch : TaskPatch) (v : JSNum) (now' : Int)
    (hpid : patch.id = none)
    (hv : patch.timeTaken = some v) (hvle : v.jle (JSNum.num 0) = false) :
    JSNum.jle JSNum.nan (JSNum.num 0) = false ∧
    ((addTask s input newId now).tasks.getLast?.map Task.timeTaken) =
      some input.timeTaken ∧
    (∀ t ∈ (updateTask s id patch now').tasks, t.id = id → t.timeTaken = v) := by
  refine ⟨rfl, ?_, ?_⟩
  · simp only [addTask, List.getLast?_concat, Option.map_some', hin]
    simp [hin]
  · intro t ht htid
    simp only [updateTask, List.map_map, List.mem_map] at ht
    obtain ⟨u, _, rfl⟩ := ht
    by_cases hu : u.id = id
    · simp only [Function.comp, hu, ne_eq, not_true_eq_false, if_false, ite_not]
      have hmid : (applyPatch u patch).id = id := by
        simp [applyPatch, hpid, hu]
      have hmtt : (applyPatch u patch).timeTaken = v := by
        simp [applyPatch, hv]
      by_cases hdone : u.status ≠ Status.done ∧
          (applyPatch u patch).status = Status.done ∧
          (applyPatch u patch).completedAt = none
      · simp only [if_pos hdone]
        simp [hmid, hmtt, hv, hvle]
      · simp only [if_neg hdone]
        simp [hmid, hmtt, hv, hvle]
    · exfalso
      simp [hu] at htid

/-- Witness for C10: a `NaN` `timeTaken` reaches the collection unchanged
through both operations. -/
theorem clamp_fires_only_on_nonpositive_witness :
    ((⟨some "n", "t", JSNum.num 0, JSNum.nan, Priority.low, Status.todo, none, 0,
        none⟩ : AddInput).timeTaken.jle (JSNum.num 0) = false ∧
      ({ timeTaken := some JSNum.nan : TaskPatch }).id = none ∧
      ({ timeTaken := some JSNum.nan : TaskPatch }).timeTaken = some JSNum.nan ∧
      JSNum.jle JSNum.nan (JSNum.num 0) = false) ∧
    (JSNum.jle JSNum.nan (JSNum.num 0) = false ∧
    ((addTask ⟨[taskA0], none⟩
        ⟨some "n", "t", JSNum.num 0, JSNum.nan, Priority.low, Status.todo, none, 0,
          none⟩ "x" 0).tasks.getLast?.map Task.timeTaken) =
      some (⟨some "n", "t", JSNum.num 0, JSNum.nan, Priority.low, Status.todo, none,
        0, none⟩ : AddInput).timeTaken ∧
    (∀ t ∈ (updateTask ⟨[taskA0], none⟩ "a"
        { timeTaken := some JSNum.nan } 9).tasks, t.id = "a" →
      t.timeTaken = JSNum.nan)) :=
  ⟨⟨rfl, rfl, rfl, rfl⟩,
    clamp_fires_only_on_nonpositive ⟨[taskA0], none⟩
      ⟨some "n", "t", JSNum.num 0, JSNum.nan, Priority.low, Status.todo, none, 0,
        none⟩ "x" 0 rfl "a" { timeTaken := some JSNum.nan } JSNum.nan 9 rfl rfl rfl⟩

/-- A loosely-typed ingestion record, as consumed by `normalizeTasks`.
`revenue` / `timeTaken` hold the result of the source's `Number(...)`
coercion (`Number(undefined)` is `NaN`); an absent or falsy (empty-string)
`createdAt` / `completedAt` is `none`. -/
structure RawTask where
  id : Option String
  title : Option String
  revenue : JSNum
  timeTaken : JSNum
  priority : Priority
  status : Status
  notes : Option String
  createdAt : Option Int
  completedAt : Option Int
deriving DecidableEq, Repr

/-- The body of `normalizeTasks`'s `.map((t, idx) => …)`
(src/hooks/useTasks.ts, lines 47–60).  The `crypto.randomUUID()` branch of
the id fallback is environment-dependent; the model takes the
deterministic `gen-…` branch (no claim depends on the generated id). -/
def normalizeOne (now : Int) (idx : ℕ) (t : RawTask) : Task :=
  let created : Int :=
    match t.createdAt with
    | some c => c
    | none => now - ((idx : Int) + 1) * 86400000
  let completed : Option Int :=
    match t.completedAt with
    | some c => some c
    | none => if t.status = Status.done then some (created + 86400000) else none
  { id := t.id.getD ("gen-" ++ toString now ++ "-" ++ toString idx),
    title := t.title.getD "",
    revenue := if t.revenue.isFinite then t.revenue else JSNum.num 0,
    timeTaken :=
      if t.timeTaken.isFinite ∧ JSNum.jlt (JSNum.num 0) t.timeTaken
      then t.timeTaken else JSNum.num 1,
    priority := t.priority, status := t.status, notes := t.notes,
    createdAt := created, completedAt := completed }

/-- `.map((t, idx) => …)` as index-carrying recursion. -/
def normalizeFrom (now : Int) (idx : ℕ) : List RawTask → List Task
  | [] => []
  | t :: ts => normalizeOne now idx t :: normalizeFrom now (idx + 1) ts

/-- `normalizeTasks` (src/hooks/useTasks.ts, lines 45–62), with `Date.now()`
passed explicitly. -/
def normalizeTasks (now : Int) (input : List RawTask) : List Task :=
  normalizeFrom now 0 input

/-- A placeholder task for total indexing via `List.getD`. -/
def defaultTask : Task :=
  ⟨"", "", JSNum.num 0, JSNum.num 1, Priority.low, Status.todo, none, 0, none⟩

theorem normalizeFrom_getD (now : Int) :
    ∀ (l : List RawTask) (k i : ℕ) (h : i < l.length),
      (normalizeFrom now k l).getD i defaultTask = normalizeOne now (k + i) (l.get ⟨i, h⟩)
  | [], _, i, h => absurd h (by simp)
  | t :: ts, k, 0, _ => by simp [normalizeFrom]
  | t :: ts, k, i + 1, h => by
    have hlt : i < ts.length := by simpa using Nat.lt_of_succ_lt_succ h
    have := normalizeFrom_getD now ts (k + 1) i hlt
    simp only [normalizeFrom, List.getD_cons_succ, List.get_cons_succ]
    rw [this]
    congr 1
    omega

/-- An ingestion record with no `createdAt` (and every numeric field the
`Number(undefined) = NaN` coercion result). -/
def rawNoCreated : RawTask :=
  ⟨none, none, JSNum.nan, JSNum.nan, Priority.low, Status.todo, none, none, none⟩

/-- **C4, counterexample.** Normalising two records that both lack
`createdAt` (at `now = 0`) gives the EARLIER entry the NEWER timestamp:
entry 0 receives `now - 1·day` and entry 1 receives `now - 2·day`, so
earlier array entries are not "older" as the claim states. -/
theorem normalize_earlier_entry_newer :
    ((normalizeTasks 0 [rawNoCreated, rawNoCreated]).map Task.createdAt) =
      [-86400000, -172800000] ∧
    ¬ ((-86400000 : Int) < -172800000) := by
  constructor
  · rfl
  · decide

/-- **C4, amended.** Each record missing `createdAt` is assigned a
synthesized backdated timestamp that is strictly decreasing in the input
index — so a LATER array entry receives an older (smaller) `createdAt`
than an earlier entry. -/
theorem normalize_backdate_strictly_decreasing
    (now : Int) (l : List RawTask) (i j : ℕ)
    (hi : i < l.length) (hj : j < l.length) (hij : i < j)
    (hci : (l.get ⟨i, hi⟩).createdAt = none)
    (hcj : (l.get ⟨j, hj⟩).createdAt = none) :
    ((normalizeTasks now l).getD j defaultTask).createdAt <
      ((normalizeTasks now l).getD i defaultTask).createdAt := by
  unfold normalizeTasks
  rw [normalizeFrom_getD now l 0 i hi, normalizeFrom_getD now l 0 j hj]
  simp only [normalizeOne, hci, hcj, Nat.zero_add]
  have hij' : (i : Int) < (j : Int) := by exact_mod_cast hij
  nlinarith [hij']

/-- Witness for the amended C4 at two concrete records. -/
theorem normalize_backdate_strictly_decreasing_witness :
    ((0 : ℕ) < [rawNoCreated, rawNoCreated].length ∧
      (1 : ℕ) < [rawNoCreated, rawNoCreated].length ∧ (0 : ℕ) < 1) ∧
    ((normalizeTasks 0 [rawNoCreated, rawNoCreated]).getD 1 defaultTask).createdAt <
      ((normalizeTasks 0 [rawNoCreated, rawNoCreated]).getD 0 defaultTask).createdAt :=
  ⟨⟨by decide, by decide, by decide⟩,
    normalize_backdate_strictly_decreasing 0 [rawNoCreated, rawNoCreated] 0 1
      (by decide) (by decide) (by decide) rfl rfl⟩

/-- Milliseconds per UTC day. -/
def msPerDay : Int := 86400000

/-- `Math.round (a / b)` for integers with `b > 0`: `⌊a/b + 1/2⌋`. -/
def jsRoundDiv (a b : Int) : Int := (2 * a + b).fdiv (2 * b)

/-- `daysBetween` (src/utils/logic.ts, lines 94–98): whole days between two
instants, `max(0, round((b-a)/86400000))`. -/
def daysBetween (aISO bISO : Int) : Int :=
  max 0 (jsRoundDiv (bISO - aISO) msPerDay)

/-- Proleptic-Gregorian `(year, month, day)` of an epoch day (the standard
civil-from-days algorithm; this is what `Date`'s UTC accessors compute). -/
def civilFromDays (z0 : Int) : Int × Int × Int :=
  let z := z0 + 719468
  let era := z.fdiv 146097
  let doe := z - era * 146097
  let yoe := (doe - doe.fdiv 1460 + doe.fdiv 36524 - doe.fdiv 146096).fdiv 365
  let y := yoe + era * 400
  let doy := doe - (365 * yoe + yoe.fdiv 4 - yoe.fdiv 100)
  let mp := (5 * doy + 2).fdiv 153
  let d := doy - (153 * mp + 2).fdiv 5 + 1
  let m := mp + (if mp < 10 then 3 else -9)
  (y + (if m ≤ 2 then 1 else 0), m, d)

/-- Epoch day of a proleptic-Gregorian civil date (days-from-civil). -/
def daysFromCivil (y0 m d : Int) : Int :=
  let y := y0 - (if m ≤ 2 then 1 else 0)
  let era := y.fdiv 400
  let yoe := y - era * 400
  let doy := (153 * (m + (if m > 2 then -3 else 9)) + 2).fdiv 5 + d - 1
  let doe := yoe * 365 + yoe.fdiv 4 - yoe.fdiv 100 + doy
  era * 146097 + doe - 719468

/-- `getUTCFullYear` of an instant. -/
def utcYear (ms : Int) : Int := (civilFromDays (ms.fdiv msPerDay)).1

/-- `getUTCDay` of an epoch day: day 0 (1970-01-01) was a Thursday (4). -/
def jsDayOfWeek (day : Int) : Int := (day + 4) % 7

/-- `getWeekNumber` (src/utils/logic.ts, lines 129–136): shift to the
Thursday of the instant's Monday-based week, subtract January 4 of the
shifted year, and round the difference to whole weeks.  `Date.UTC(y,m,d)`
of the instant is its midnight, i.e. its epoch day; `setUTCDate` is day
arithmetic; the millisecond quotients of the source cancel to day
quotients. -/
def getWeekNumber (ms : Int) : Int :=
  let day := ms.fdiv msPerDay
  let dayNr := (jsDayOfWeek day + 6) % 7
  let target := day - dayNr + 3
  let firstThursday := daysFromCivil (civilFromDays target).1 1 4
  let diff := target - firstThursday
  1 + jsRoundDiv diff 7

/-- The week key `` `${d.getUTCFullYear()}-W${getWeekNumber(d)}` `` of an
instant (no zero-padding of the week number, as in the source). -/
def weekKey (ms : Int) : String :=
  toString (utcYear ms) ++ "-W" ++ toString (getWeekNumber ms)

/-- One row of `computeThroughputByWeek`'s output. -/
structure WeekThroughput where
  week : String
  count : ℕ
  revenue : JSNum
deriving DecidableEq, Repr

/-- `byWeek.set(weekKey, v)` on the insertion-ordered JS `Map`, where `v`
starts from `{count: 0, revenue: 0}` and is bumped by one task's revenue:
an existing key is updated in place, a new key is appended. -/
def bumpWeek : List WeekThroughput → String → JSNum → List WeekThroughput
  | [], k, r => [⟨k, 0 + 1, JSNum.jadd (JSNum.num 0) r⟩]
  | e :: rest, k, r =>
      if e.week = k then ⟨e.week, e.count + 1, JSNum.jadd e.revenue r⟩ :: rest
      else e :: bumpWeek rest k r

/-- Lexicographic (code-point) `≤` on character lists: the order
`localeCompare` induces on the ASCII week keys. -/
def charListLe : List Char → List Char → Bool
  | [], _ => true
  | _ :: _, [] => false
  | c :: cs, d :: ds =>
      if c < d then true else if d < c then false else charListLe cs ds

/-- `a.localeCompare(b) <= 0` on week keys: code-point `≤` on strings. -/
def strLe (a b : String) : Bool := charListLe a.data b.data

/-- `computeThroughputByWeek` (src/utils/logic.ts, lines 115–127): bucket
completed tasks by week key into an insertion-ordered map, then sort the
entries by `localeCompare` on the key. -/
def computeThroughputByWeek (tasks : List Task) : List WeekThroughput :=
  let byWeek := tasks.foldl
    (fun m t =>
      match t.completedAt with
      | none => m
      | some ms => bumpWeek m (weekKey ms) t.revenue)
    []
  List.insertionSort (fun a b => strLe a.week b.week = true) byWeek

/-- A task completed on 2024-02-01 (ISO week 5 of 2024; epoch day 19754). -/
def weekTask1 : Task :=
  ⟨"t1", "", JSNum.num 10, JSNum.num 1, Priority.high, Status.done, none, 0,
    some (19754 * 86400000)⟩

/-- A task completed on 2024-03-05 (ISO week 10 of 2024; epoch day 19787). -/
def weekTask2 : Task :=
  ⟨"t2", "", JSNum.num 20, JSNum.num 1, Priority.high, Status.done, none, 0,
    some (19787 * 86400000)⟩

/-- **C1.** The output of `computeThroughputByWeek` is NOT chronologically
ordered: the week keys carry no zero-padding, so for the two tasks
completed in weeks 5 and 10 of 2024 the lexicographic sort places
`"2024-W10"` (the chronologically later week) before `"2024-W5"`, although
the first task's completion instant precedes the second's. -/
theorem throughput_not_chronological :
    computeThroughputByWeek [weekTask1, weekTask2] =
      [⟨"2024-W10", 1, JSNum.num 20⟩, ⟨"2024-W5", 1, JSNum.num 10⟩] ∧
    weekKey (19754 * 86400000) = "2024-W5" ∧
    weekKey (19787 * 86400000) = "2024-W10" ∧
    (19754 * 86400000 : Int) < 19787 * 86400000 := by
  refine ⟨by with_unfolding_all rfl, rfl, rfl, by decide⟩

/-- One priority bucket's velocity statistics. -/
structure VelocityStat where
  avgDays : ℚ
  medianDays : ℚ
deriving DecidableEq, Repr

/-- The `{High, Medium, Low}` record returned by
`computeVelocityByPriority`. -/
structure VelocityStats where
  high : VelocityStat
  medium : VelocityStat
  low : VelocityStat
deriving DecidableEq, Repr

/-- Project the bucket of one priority. -/
def VelocityStats.get (s : VelocityStats) : Priority → VelocityStat
  | Priority.high => s.high
  | Priority.medium => s.medium
  | Priority.low => s.low

/-- `groups[p]` after the `forEach` loop of `computeVelocityByPriority`
(src/utils/logic.ts, lines 101–104): the `daysBetween(createdAt,
completedAt)` values, in input order, of the tasks of priority `p` that
have a (truthy) `completedAt`. -/
def velocityGroup (tasks : List Task) (p : Priority) : List Int :=
  tasks.filterMap fun t =>
    match t.completedAt with
    | some c => if t.priority = p then some (daysBetween t.createdAt c) else none
    | none => none

/-- The per-bucket body of `computeVelocityByPriority` (src/utils/logic.ts,
lines 106–111): sort ascending, average, and take `arr[⌊n/2⌋]`. -/
def velocityStat (g : List Int) : VelocityStat :=
  let arr := List.insertionSort (fun a b : Int => a ≤ b) g
  ⟨if arr.length = 0 then 0
    else ((arr.foldl (fun s v => s + v) 0 : Int) : ℚ) / arr.length,
   if arr.length = 0 then 0 else ((arr.getD (arr.length / 2) 0 : Int) : ℚ)⟩

/-- `computeVelocityByPriority` (src/utils/logic.ts, lines 100–113). -/
def computeVelocityByPriority (tasks : List Task) : VelocityStats :=
  ⟨velocityStat (velocityGroup tasks Priority.high),
   velocityStat (velocityGroup tasks Priority.medium),
   velocityStat (velocityGroup tasks Priority.low)⟩

/-- The LOWER median of a bucket, as the claim reads: the element at index
`⌈n/2⌉ - 1 = (n-1)/2` of the ascending-sorted values (`0` when empty).
This follows the claim's words, for comparison with the code's statistic. -/
def lowerMedian (g : List Int) : ℚ :=
  let arr := List.insertionSort (fun a b : Int => a ≤ b) g
  if arr.length = 0 then 0 else ((arr.getD ((arr.length - 1) / 2) 0 : Int) : ℚ)

/-- High-priority task created at epoch 0, completed one day later. -/
def velTask1 : Task :=
  ⟨"v1", "", JSNum.num 0, JSNum.num 1, Priority.high, Status.done, none, 0,
    some 86400000⟩

/-- High-priority task created at epoch 0, completed three days later. -/
def velTask2 : Task :=
  ⟨"v2", "", JSNum.num 0, JSNum.num 1, Priority.high, Status.done, none, 0,
    some 259200000⟩

/-- **C9, counterexample.** For the even-length High bucket `[1, 3]`, the
reported `medianDays` is `3` — the element at index `⌊n/2⌋ = 1`, i.e. the
UPPER median — while the lower median of the same bucket is `1`. -/
theorem velocity_medianDays_not_lower_median :
    (computeVelocityByPriority [velTask1, velTask2]).high.medianDays = 3 ∧
    lowerMedian (velocityGroup [velTask1, velTask2] Priority.high) = 1 ∧
    (3 : ℚ) ≠ 1 := by
  refine ⟨by with_unfolding_all rfl, by with_unfolding_all rfl, by norm_num⟩

theorem foldlAdd_eq_sum : ∀ (l : List Int) (a : Int),
    l.foldl (fun s v => s + v) a = a + l.sum
  | [], a => by simp
  | x :: xs, a => by
    simp only [List.foldl_cons, List.sum_cons, foldlAdd_eq_sum xs]
    ring

theorem velocityGroup_cons (t : Task) (ts : List Task) (p : Priority) :
    velocityGroup (t :: ts) p =
      match t.completedAt with
      | some c =>
          if t.priority = p
          then daysBetween t.createdAt c :: velocityGroup ts p
          else velocityGroup ts p
      | none => velocityGroup ts p := by
  simp only [velocityGroup, List.filterMap_cons]
  cases t.completedAt with
  | none => rfl
  | some c =>
    by_cases hp : t.priority = p
    · simp [hp]
    · simp [hp]

theorem velocityGroup_eq_filter_map (tasks : List Task) (p : Priority) :
    velocityGroup tasks p =
      (tasks.filter fun t => decide (t.priority = p) && t.completedAt.isSome).map
        fun t => daysBetween t.createdAt (t.completedAt.getD 0) := by
  induction tasks with
  | nil => rfl
  | cons t ts ih =>
    rw [velocityGroup_cons, List.filter_cons]
    cases hc : t.completedAt with
    | none => simp [hc, ih]
    | some c =>
      by_cases hp : t.priority = p
      · simp [hc, hp, ih]
      · simp [hc, hp, ih]

/-- **C9, amended.** For every collection and priority bucket, the reported
`medianDays` is the element at index `⌊n/2⌋` of the ascending-sorted bucket
of `daysBetween(createdAt, completedAt)` values — the UPPER median for
even-length buckets — and `avgDays` is the bucket's mean; an empty bucket
yields `avgDays 0` and `medianDays 0`. -/
theorem velocity_stats_characterization (tasks : List Task) (p : Priority) :
    (computeVelocityByPriority tasks).get p =
      (let bucket :=
        (tasks.filter fun t => decide (t.priority = p) && t.completedAt.isSome).map
          fun t => daysBetween t.createdAt (t.completedAt.getD 0);
       let arr := List.insertionSort (fun a b : Int => a ≤ b) bucket;
       ⟨if bucket.length = 0 then 0 else ((bucket.sum : Int) : ℚ) / bucket.length,
        if bucket.length = 0 then 0
        else ((arr.getD (bucket.length / 2) 0 : Int) : ℚ)⟩) := by
  have hbucket := velocityGroup_eq_filter_map tasks p
  have hgen : ∀ g : List Int,
      velocityStat g =
        ⟨if g.length = 0 then 0 else ((g.sum : Int) : ℚ) / g.length,
         if g.length = 0 then 0
         else (((List.insertionSort (fun a b : Int => a ≤ b) g).getD
            (g.length / 2) 0 : Int) : ℚ)⟩ := by
    intro g
    have hperm := List.perm_insertionSort (fun a b : Int => a ≤ b) g
    have hlen : (List.insertionSort (fun a b : Int => a ≤ b) g).length = g.length :=
      hperm.length_eq
    have hsum : (List.insertionSort (fun a b : Int => a ≤ b) g).sum = g.sum :=
      hperm.sum_eq
    simp only [velocityStat, hlen, foldlAdd_eq_sum, hsum, zero_add]
  cases p <;>
    simp only [computeVelocityByPriority, VelocityStats.get, hgen, ← hbucket]

end TaskGlitch
